import Mathlib

/-!
# eth-event-storage: the LocalForage query engine

A shallow embedding of `src/LocalForage.js`: the selector match, the single-pass
`find` (filter, window, total), `readAll`, `iterate`, the sort built by
`_buildSortFn`, and the point operations `store`, `read` and `remove`.

Modelling conventions.

* JavaScript values are the scalars `undefined`, `null`, booleans, numbers and
  strings.  Numbers are the IEEE 754 doubles, given by their fields; a string
  is converted to the nearest double.
* A record (and a selector) is an object: a finite list of fields.
* The backend handle returned by `_getDB` is the parameter `db`; it is a list of
  key/record pairs in the backend's iteration order, plus a flag telling whether
  the driver rejects mutations.
* A callback handed to the backend's `iterate` is a closure over mutable locals;
  it is embedded as a function that passes those locals explicitly and returns
  `none` for `undefined`.
* `Array.prototype.sort` is a stable sort; it is embedded as the stable insertion
  sort.  For a consistent comparator every stable sort has the same result.
-/

namespace EthEventStorage

set_option exponentiation.threshold 2100

/-! ## JavaScript numbers -/

/-- The constant 2^52: the weight of the hidden bit of a double. -/
def twoPow52 : Nat := 4503599627370496

/-- A JavaScript number, that is an IEEE 754 binary64 value: `NaN`, an infinity,
or a finite double given by its sign, biased exponent (0 for a subnormal) and
fraction field. -/
inductive JSNum where
  | nan
  | inf (neg : Bool)
  | fin (neg : Bool) (expo : Fin 2047) (frac : Fin 4503599627370496)
  deriving DecidableEq, Repr

/-- The magnitude of a finite double in units of 2^-1074, the spacing of the
subnormals: the fraction itself for a subnormal, else the fraction with the
hidden bit, shifted by the exponent. -/
def magnitude (expo : Fin 2047) (frac : Fin 4503599627370496) : Nat :=
  if expo.val = 0 then frac.val else (twoPow52 + frac.val) * 2 ^ (expo.val - 1)

/-- The value of a finite double in units of 2^-1074; both zeros are 0. -/
def units (neg : Bool) (expo : Fin 2047) (frac : Fin 4503599627370496) : Int :=
  if neg then - (magnitude expo frac : Int) else (magnitude expo frac : Int)

/-- Numeric equality, the `===` of two numbers: the same infinity or the same
finite value; `NaN` equals nothing, the two zeros are equal. -/
def JSNum.eq : JSNum → JSNum → Bool
  | .inf n1, .inf n2 => n1 == n2
  | .fin n1 e1 f1, .fin n2 e2 f2 => decide (units n1 e1 f1 = units n2 e2 f2)
  | _, _ => false

/-- Numeric `<`: by value, with the infinities at the ends; false as soon as a
side is `NaN`. -/
def JSNum.lt : JSNum → JSNum → Bool
  | .inf n1, .inf n2 => n1 && !n2
  | .inf n1, .fin _ _ _ => n1
  | .fin _ _ _, .inf n2 => !n2
  | .fin n1 e1 f1, .fin n2 e2 f2 => decide (units n1 e1 f1 < units n2 e2 f2)
  | _, _ => false

/-- The quotient `a / b` rounded to the nearest integer, ties to even. -/
def divRoundEven (a b : Nat) : Nat :=
  let q := a / b
  let r := a % b
  if b < 2 * r || (2 * r == b && q % 2 == 1) then q + 1 else q

/-- Binary logarithm by repeated halving; `fuel` bounds the number of steps. -/
def ilog2Aux : Nat → Nat → Nat
  | 0, _ => 0
  | fuel + 1, n => if n < 2 then 0 else ilog2Aux fuel (n / 2) + 1

/-- The position of the leading bit of `n`: the `a` with `2^a ≤ n < 2^(a+1)`;
0 for 0. -/
def ilog2 (n : Nat) : Nat :=
  ilog2Aux n n

/-- The binary exponent of `n / d` for positive `n` and `d`: the `p` with
`2^p ≤ n / d < 2^(p+1)`. -/
def floorLog2 (n d : Nat) : Int :=
  let p0 : Int := (ilog2 n : Int) - (ilog2 d : Int)
  if 0 ≤ p0 then (if d * 2 ^ p0.toNat ≤ n then p0 else p0 - 1)
  else (if d ≤ n * 2 ^ (-p0).toNat then p0 else p0 - 1)

/-- The double nearest to `n / d` with the given sign, ties to even; an infinity
on overflow.  The significand `q` is `n / d` in units of `2^s`, where `2^s` is
the spacing of the doubles around `n / d`. -/
def roundToDouble (neg : Bool) (n d : Nat) : JSNum :=
  if n = 0 ∨ d = 0 then .fin neg 0 0
  else
    let p := floorLog2 n d
    let s : Int := max (p - 52) (-1074)
    let q := if 0 ≤ s then divRoundEven n (d * 2 ^ s.toNat)
      else divRoundEven (n * 2 ^ (-s).toNat) d
    let expo : Int :=
      if q < twoPow52 then 0 else if q < 2 * twoPow52 then s + 1075 else s + 1076
    if h : expo.toNat < 2047 then
      .fin neg ⟨expo.toNat, h⟩ ⟨q % twoPow52, Nat.mod_lt _ (by decide)⟩
    else .inf neg

/-- The number with the integer value `i`, rounded if need be. -/
def JSNum.ofInt : Int → JSNum
  | .ofNat n => roundToDouble false n 1
  | .negSucc n => roundToDouble true (n + 1) 1

/-! ## String to number -/

/-- White space that the string-to-number conversion strips. -/
def isStrWhiteSpace (c : Char) : Bool :=
  c.toNat ∈ [9, 10, 11, 12, 13, 32, 160, 5760, 8192, 8193, 8194, 8195, 8196, 8197, 8198,
    8199, 8200, 8201, 8202, 8232, 8233, 8239, 8287, 12288, 65279]

/-- Strip leading and trailing white space. -/
def trimWS (cs : List Char) : List Char :=
  ((cs.dropWhile isStrWhiteSpace).reverse.dropWhile isStrWhiteSpace).reverse

/-- The value of a digit character, letters counting from ten. -/
def digitOf (c : Char) : Option Nat :=
  if 48 ≤ c.toNat ∧ c.toNat ≤ 57 then some (c.toNat - 48)
  else if 97 ≤ c.toNat ∧ c.toNat ≤ 102 then some (c.toNat - 87)
  else if 65 ≤ c.toNat ∧ c.toNat ≤ 70 then some (c.toNat - 55)
  else none

/-- The value of a run of digits in the given radix; `none` when a character is
not a digit of that radix. -/
def digitsValue (radix : Nat) (acc : Nat) : List Char → Option Nat
  | [] => some acc
  | c :: cs =>
    match digitOf c with
    | some v => if v < radix then digitsValue radix (acc * radix + v) cs else none
    | none => none

/-- The exponent part of a decimal literal: `e` or `E`, an optional sign, and at
least one digit up to the end of the literal. -/
def exponentPart (cs : List Char) : Option Int :=
  match cs with
  | [] => some 0
  | c :: t =>
    if c = 'e' ∨ c = 'E' then
      match t with
      | [] => none
      | s :: u =>
        if s = '-' then
          (if u.isEmpty then none else (digitsValue 10 0 u).map (fun x => - (x : Int)))
        else if s = '+' then
          (if u.isEmpty then none else (digitsValue 10 0 u).map (fun x => (x : Int)))
        else (digitsValue 10 0 t).map (fun x => (x : Int))
    else none

/-- An unsigned decimal literal other than `Infinity`: digits, an optional point
with digits, an optional exponent; at least one digit before the exponent.  The
result `(m, e)` stands for the value `m * 10^e`. -/
def unsignedDecimal (cs : List Char) : Option (Nat × Int) :=
  let ip := cs.takeWhile Char.isDigit
  let r1 := cs.dropWhile Char.isDigit
  let fp := match r1 with
    | '.' :: t => t.takeWhile Char.isDigit
    | _ => []
  let r2 := match r1 with
    | '.' :: t => t.dropWhile Char.isDigit
    | _ => r1
  if ip.isEmpty && fp.isEmpty then none
  else
    match digitsValue 10 0 (ip ++ fp), exponentPart r2 with
    | some m, some e => some (m, e - (fp.length : Int))
    | _, _ => none

/-- A decimal literal after its sign: `Infinity` or an unsigned decimal, rounded
to the nearest double. -/
def decimalLiteral (neg : Bool) (cs : List Char) : JSNum :=
  if cs = ['I', 'n', 'f', 'i', 'n', 'i', 't', 'y'] then .inf neg
  else
    match unsignedDecimal cs with
    | some (m, e) =>
      if 0 ≤ e then roundToDouble neg (m * 10 ^ e.toNat) 1
      else roundToDouble neg m (10 ^ (-e).toNat)
    | none => .nan

/-- An integer literal in radix 2, 8 or 16 after its two-character mark. -/
def radixLiteral (radix : Nat) (cs : List Char) : JSNum :=
  if cs.isEmpty then .nan
  else
    match digitsValue radix 0 cs with
    | some m => roundToDouble false m 1
    | none => .nan

/-- The conversion of a string to a number: white space is stripped, a blank
string is `+0`, then a binary, octal or hexadecimal integer literal, or an
optionally signed decimal literal; anything else is `NaN`. -/
def stringToNumber (s : String) : JSNum :=
  match trimWS s.data with
  | [] => .fin false 0 0
  | '0' :: 'x' :: t => radixLiteral 16 t
  | '0' :: 'X' :: t => radixLiteral 16 t
  | '0' :: 'o' :: t => radixLiteral 8 t
  | '0' :: 'O' :: t => radixLiteral 8 t
  | '0' :: 'b' :: t => radixLiteral 2 t
  | '0' :: 'B' :: t => radixLiteral 2 t
  | '-' :: t => decimalLiteral true t
  | '+' :: t => decimalLiteral false t
  | cs => decimalLiteral false cs

/-! ## JavaScript values -/

/-- JavaScript scalar values. -/
inductive JSVal where
  | undefined
  | null
  | bool (b : Bool)
  | num (x : JSNum)
  | str (s : String)
  deriving DecidableEq, Repr

/-- An object: its own enumerable fields, in order. -/
abbrev JSObj := List (String × JSVal)

/-- Property read `o[p]`: the field value, or `undefined` when absent. -/
def getField (o : JSObj) (p : String) : JSVal :=
  (o.lookup p).getD JSVal.undefined

/-- The keys of an object, as `_.keys` lists them. -/
def keys (o : JSObj) : List String :=
  o.map Prod.fst

/-- The conversion `ToNumber`. -/
def toNumber : JSVal → JSNum
  | .undefined => .nan
  | .null => .fin false 0 0
  | .bool b => if b then JSNum.ofInt 1 else .fin false 0 0
  | .num x => x
  | .str s => stringToNumber s

/-- The global `isNaN(v)`. -/
def isNaN (v : JSVal) : Bool :=
  decide (toNumber v = JSNum.nan)

/-- The update `v -= 0`: the numeric value of `v`. -/
def minusZero (v : JSVal) : JSVal :=
  .num (toNumber v)

/-- Strict equality `a === b`: numeric equality on two numbers, otherwise the
same type and the same value. -/
def strictEq : JSVal → JSVal → Bool
  | .num a, .num b => JSNum.eq a b
  | a, b => decide (a = b)

/-- The UTF-16 code units of a character. -/
def utf16 (c : Char) : List Nat :=
  if c.toNat < 65536 then [c.toNat]
  else [55296 + (c.toNat - 65536) / 1024, 56320 + (c.toNat - 65536) % 1024]

/-- The code units of a string, which is what `<` on strings compares. -/
def codeUnits (s : String) : List Nat :=
  s.data.flatMap utf16

/-- The relational comparison `a < b`: two strings compare by code units,
anything else by numeric value, and a comparison with `NaN` is false. -/
def jsLt (a b : JSVal) : Bool :=
  match a, b with
  | .str s, .str t => decide (codeUnits s < codeUnits t)
  | _, _ => JSNum.lt (toNumber a) (toNumber b)

/-- The relational comparison `a > b`. -/
def jsGt (a b : JSVal) : Bool :=
  jsLt b a

/-- The falsy-default idiom `x || d` on an optional number. -/
def orDefault (x : Option Int) (d : Int) : Int :=
  match x with
  | some n => if n = 0 then d else n
  | none => d

/-! ## The backend handle -/

/-- A store handle: the records in iteration order, and whether the driver
rejects `setItem` and `removeItem`. -/
structure DB where
  items : List (String × JSObj)
  failing : Bool
  deriving DecidableEq, Repr

/-- Replace the value under `key`, or append a new entry. -/
def upsert (key : String) (value : JSObj) : List (String × JSObj) → List (String × JSObj)
  | [] => [(key, value)]
  | (k, v) :: rest =>
    if k = key then (key, value) :: rest else (k, v) :: upsert key value rest

/-- Driver `getItem`: the value or `null` (`none`). -/
def DB.getItem (db : DB) (key : String) : Option JSObj :=
  db.items.lookup key

/-- Driver `setItem`: rejects on a failing driver, otherwise upserts. -/
def DB.setItem (db : DB) (key : String) (value : JSObj) : Except String DB :=
  if db.failing then .error "setItem rejected"
  else .ok { items := upsert key value db.items, failing := db.failing }

/-- Driver `removeItem`: rejects on a failing driver, otherwise deletes the key. -/
def DB.removeItem (db : DB) (key : String) : Except String DB :=
  if db.failing then .error "removeItem rejected"
  else .ok { items := db.items.filter (fun kv => kv.1 ≠ key), failing := db.failing }

/-- The driver's forward iteration from ordinal `n`: the callback sees value, key
and ordinal; a result other than `undefined` stops the iteration and is its
result.  The first component is the callback's mutable state afterwards. -/
def iterateFrom {σ β : Type} (cb : σ → JSObj → String → Nat → σ × Option β) :
    List (String × JSObj) → Nat → σ → σ × Option β
  | [], _, s => (s, none)
  | (k, v) :: rest, n, s =>
    match cb s v k n with
    | (s1, some x) => (s1, some x)
    | (s1, none) => iterateFrom cb rest (n + 1) s1

/-- Driver `iterate`: ordinals start at 1. -/
def DB.iterate {σ β : Type} (db : DB) (cb : σ → JSObj → String → Nat → σ × Option β)
    (s : σ) : σ × Option β :=
  iterateFrom cb db.items 1 s

/-! ## Sorting -/

/-- One entry of `props.sort`. -/
structure SortSpec where
  field : String
  order : String
  deriving DecidableEq, Repr

/-- Upper-casing of one character, on the characters whose upper case is an
ASCII capital: the ASCII small letters and the long s. -/
def upperChar (c : Char) : Char :=
  if c.toNat = 383 then 'S' else c.toUpper

/-- The method `toUpperCase`, as far as a comparison with `ASC` can tell. -/
def toUpperCase (s : String) : String :=
  String.mk (s.data.map upperChar)

/-- The comparator that `sorter` hands to `sort`. -/
def compareFn (fld : String) (isAsc : Bool) (a b : JSObj) : Int :=
  let av := getField a fld
  let bv := getField b fld
  if jsGt av bv then (if isAsc then 1 else -1)
  else if jsLt av bv then (if isAsc then -1 else 1)
  else 0

/-- The array method `sort(cmp)`: stable, `a` stays before `b` when `cmp a b ≤ 0`. -/
def arraySort (cmp : JSObj → JSObj → Int) (set : List JSObj) : List JSObj :=
  set.insertionSort (fun a b => cmp a b ≤ 0)

/-- The inner `sorter(set, fld, isAsc)` of `_buildSortFn`. -/
def sorter (set : List JSObj) (fld : String) (isAsc : Bool) : List JSObj :=
  arraySort (compareFn fld isAsc) set

/-- The function `_buildSortFn(props)`: default sort when `props.sort` is absent,
then one `sorter` pass per entry, in list order. -/
def _buildSortFn (sort : Option (List SortSpec)) : List JSObj → List JSObj :=
  let sort := sort.getD [{ field := "blockNumber", order := "desc" }]
  fun set => sort.foldl (fun set s => sorter set s.field (toUpperCase s.order == "ASC")) set

/-! ## The selector match of `find` -/

/-- The selector loop of `find` over the remaining keys: `allMatch` stays true
unless some key fails `v !== tgt`, after both sides were made numeric when
neither is `NaN`. -/
def selectorLoop (selector dbVal : JSObj) : List String → Bool
  | [] => true
  | p :: rest =>
    let tgt := getField selector p
    let v := getField dbVal p
    let coerce := !isNaN v && !isNaN tgt
    let v1 := if coerce then minusZero v else v
    let tgt1 := if coerce then minusZero tgt else tgt
    if !strictEq v1 tgt1 then false else selectorLoop selector dbVal rest

/-- The flag `allMatch` that `find` computes for one record. -/
def allMatch (selector dbVal : JSObj) : Bool :=
  selectorLoop selector dbVal (keys selector)

/-! ## The query engine -/

/-- A `LocalForage` instance: the configured default window size. -/
structure LocalForage where
  querySizeLimit : Int
  deriving DecidableEq, Repr

/-- The constructor: `querySizeLimit` from the properties, 50 by default. -/
def LocalForage.new (querySizeLimit : Option Int) : LocalForage :=
  { querySizeLimit := orDefault querySizeLimit 50 }

/-- The properties `find` reads. -/
structure FindProps where
  selector : JSObj
  sort : Option (List SortSpec)
  limit : Option Int
  offset : Option Int
  includeTotal : Bool

/-- The locals that the iteration callback of `find` updates. -/
structure FindState where
  set : List JSObj
  total : Nat
  skipping : Bool
  deriving DecidableEq, Repr

/-- What `find` returns: the window, or the window with the total. -/
inductive FindResult where
  | list (data : List JSObj)
  | withTotal (total : Nat) (data : List JSObj)
  deriving DecidableEq, Repr

/-- The records of a result. -/
def FindResult.data : FindResult → List JSObj
  | .list d => d
  | .withTotal _ d => d

/-- The iteration callback of `find`. -/
def findCallback (selector : JSObj) (offset limit : Int) (includeTotal : Bool)
    (st : FindState) (dbVal : JSObj) (_dbKey : String) (_itNum : Nat) :
    FindState × Option (List JSObj) :=
  let endLength := offset + limit
  if allMatch selector dbVal then
    let total := st.total + 1
    if !st.skipping && decide ((st.set.length : Int) < endLength) then
      let set := st.set ++ [dbVal]
      ({ set := set, total := total,
         skipping := decide ((total : Int) < offset) ||
           decide ((set.length : Int) > offset + limit) }, none)
    else if !st.skipping && decide ((st.set.length : Int) ≥ endLength) && !includeTotal then
      ({ set := st.set, total := total, skipping := st.skipping }, some st.set)
    else
      ({ set := st.set, total := total,
         skipping := decide ((total : Int) < offset) ||
           decide ((st.set.length : Int) > offset + limit) }, none)
  else
    ({ set := st.set, total := st.total,
       skipping := decide ((st.total : Int) < offset) ||
         decide ((st.set.length : Int) > offset + limit) }, none)

/-- The method `find(props)`. -/
def LocalForage.find (self : LocalForage) (db : DB) (props : FindProps) : FindResult :=
  let sortFn := _buildSortFn props.sort
  let limit := orDefault props.limit self.querySizeLimit
  let offset := orDefault props.offset 0
  let st0 : FindState := { set := [], total := 0, skipping := decide (offset > 0) }
  let st := (db.iterate (findCallback props.selector offset limit props.includeTotal) st0).1
  let set := sortFn st.set
  if props.includeTotal then .withTotal st.total set else .list set

/-- The properties `readAll` reads; `filterFn` gives the truthiness of the
caller's predicate. -/
structure ReadAllProps where
  sort : Option (List SortSpec)
  limit : Option Int
  filterFn : Option (JSObj → String → Nat → Bool)

/-- The iteration callback of `readAll`. -/
def readAllCallback (limit : Int) (filterFn : Option (JSObj → String → Nat → Bool))
    (set : List JSObj) (v : JSObj) (k : String) (itNum : Nat) :
    List JSObj × Option (List JSObj) :=
  if (itNum : Int) > limit then (set, some set)
  else
    match filterFn with
    | some f => if f v k itNum then (set ++ [v], none) else (set, none)
    | none => (set ++ [v], none)

/-- The method `readAll(props)`. -/
def LocalForage.readAll (self : LocalForage) (db : DB) (props : ReadAllProps) : List JSObj :=
  let sortFn := _buildSortFn props.sort
  let limit := orDefault props.limit self.querySizeLimit
  let set := (db.iterate (readAllCallback limit props.filterFn) []).1
  sortFn set

/-- The method `iterate(props)`: drives the backend iteration with the caller's
callback and resolves to `undefined`; the first component is the callback's
state afterwards. -/
def LocalForage.iterate {σ β : Type} (_self : LocalForage) (db : DB)
    (callback : σ → JSObj → String → Nat → σ × Option β) (s : σ) : σ × Option β :=
  let r := db.iterate callback s
  (r.1, none)

/-- The method `store(props)`: a rejected write is logged and swallowed. -/
def LocalForage.store (_self : LocalForage) (db : DB) (key : String) (data : JSObj) : DB :=
  match db.setItem key data with
  | .ok db1 => db1
  | .error _ => db

/-- The method `read(props)`: a one-element array, or the empty array when
`getItem` gave `null`. -/
def LocalForage.read (_self : LocalForage) (db : DB) (key : String) : List JSObj :=
  match db.getItem key with
  | some r => [r]
  | none => []

/-- The method `remove(props)`: a rejected removal is logged and swallowed. -/
def LocalForage.remove (_self : LocalForage) (db : DB) (key : String) : DB :=
  match db.removeItem key with
  | .ok db1 => db1
  | .error _ => db

/-! ## Sample data -/

/-- The record `{n: i}`. -/
def recN (i : Int) : JSObj :=
  [("n", JSVal.num (JSNum.ofInt i))]

/-- A healthy store with the records `{n: 1}` .. `{n: 10}` under the keys 1 .. 10. -/
def tenStore : DB :=
  { items := [("1", recN 1), ("2", recN 2), ("3", recN 3), ("4", recN 4), ("5", recN 5),
      ("6", recN 6), ("7", recN 7), ("8", recN 8), ("9", recN 9), ("10", recN 10)],
    failing := false }

/-- Ascending sort on the field `n`. -/
def sortByN : Option (List SortSpec) :=
  some [{ field := "n", order := "asc" }]

/-! ## Vocabulary of the properties -/

/-- A callback that decides by `f` alone and logs every record it is called on. -/
def logging {β : Type} (f : JSObj → String → Nat → Option β)
    (log : List (String × JSObj)) (v : JSObj) (k : String) (n : Nat) :
    List (String × JSObj) × Option β :=
  (log ++ [(k, v)], f v k n)

/-- Field agreement under a notion of numeric-like value: two numeric-like values
agree when their numeric values are equal, any other pair when strictly equal. -/
def fieldAgrees (numericLike : JSVal → Bool) (v tgt : JSVal) : Bool :=
  if numericLike v && numericLike tgt then JSNum.eq (toNumber v) (toNumber tgt)
  else strictEq v tgt

/-- Numeric-like in the words of the specification: a number or a numeric string. -/
def specNumericLike : JSVal → Bool
  | .num _ => true
  | .str s => decide (stringToNumber s ≠ JSNum.nan)
  | _ => false

/-- Numeric-like as `find` tests it: `isNaN` is false. -/
def notNaN (v : JSVal) : Bool :=
  !isNaN v

/-- Two values tie under the relational comparison: neither is less. -/
def tie (u v : JSVal) : Bool :=
  !jsLt u v && !jsLt v u

/-- The field `fld` is comparable across `l`: on its values the relational
comparison is a strict weak order (being less is transitive, and so is tying). -/
def Comparable (fld : String) (l : List JSObj) : Prop :=
  (∀ x ∈ l, ∀ y ∈ l, ∀ z ∈ l,
    jsLt (getField x fld) (getField y fld) = true →
    jsLt (getField y fld) (getField z fld) = true →
    jsLt (getField x fld) (getField z fld) = true) ∧
  (∀ x ∈ l, ∀ y ∈ l, ∀ z ∈ l,
    tie (getField x fld) (getField y fld) = true →
    tie (getField y fld) (getField z fld) = true →
    tie (getField x fld) (getField z fld) = true)

/-- The sort list `[{field: fa, order: "asc"}, {field: fb, order: "desc"}]`. -/
def sortTwo (fa fb : String) : Option (List SortSpec) :=
  some [{ field := fa, order := "asc" }, { field := fb, order := "desc" }]

/-- The record `r` ties with `x0` on both fields. -/
def tiesOn (fa fb : String) (x0 r : JSObj) : Bool :=
  tie (getField r fa) (getField x0 fa) && tie (getField r fb) (getField x0 fb)

/-- The order that `sortTwo fa fb` is to produce: `fb` descending, then `fa`
ascending among the records that tie on `fb`. -/
def orderedBy (fa fb : String) (x y : JSObj) : Prop :=
  jsGt (getField x fb) (getField y fb) = true ∨
    (tie (getField x fb) (getField y fb) = true ∧
      jsGt (getField x fa) (getField y fa) = false)

/-- The record `{field: "value"}` of the repository's test. -/
def testRecord : JSObj :=
  [("field", JSVal.str "value")]

/-- A store that holds `testRecord` under `test` and whose driver rejects
mutations. -/
def stuckStore : DB :=
  { items := [("test", testRecord)], failing := true }

/-- A callback decision: return the field `n` of the first record whose `n`
exceeds 2. -/
def firstAboveTwo (v : JSObj) (_k : String) (_n : Nat) : Option JSVal :=
  if jsGt (getField v "n") (JSVal.num (JSNum.ofInt 2)) then some (getField v "n") else none

/-- A `filterFn`: keep the records whose `n` exceeds 2. -/
def nAboveTwo (v : JSObj) (_k : String) (_n : Nat) : Bool :=
  jsGt (getField v "n") (JSVal.num (JSNum.ofInt 2))

/-- The object `{amount: v}`. -/
def amount (v : JSVal) : JSObj :=
  [("amount", v)]

/-- The record `{flag: true}`. -/
def flagRecord : JSObj :=
  [("flag", JSVal.bool true)]

/-- The selector `{flag: 1}`. -/
def flagSelector : JSObj :=
  [("flag", JSVal.num (JSNum.ofInt 1))]

/-- The record `{a: x, b: y, id: i}`. -/
def recAB (x y i : Int) : JSObj :=
  [("a", JSVal.num (JSNum.ofInt x)), ("b", JSVal.num (JSNum.ofInt y)),
    ("id", JSVal.num (JSNum.ofInt i))]

/-- Five records, two of which tie on both `a` and `b`. -/
def sampleAB : List JSObj :=
  [recAB 2 1 0, recAB 1 2 1, recAB 1 1 2, recAB 3 2 3, recAB 1 2 4]

/-- The first two entries of `tenStore`. -/
def firstTwo : List (String × JSObj) :=
  [("1", recN 1), ("2", recN 2)]

/-- The last eight entries of `tenStore`. -/
def lastEight : List (String × JSObj) :=
  [("3", recN 3), ("4", recN 4), ("5", recN 5), ("6", recN 6), ("7", recN 7),
    ("8", recN 8), ("9", recN 9), ("10", recN 10)]

/-- The records of `items` that match `selector`, in iteration order. -/
def matching (selector : JSObj) (items : List (String × JSObj)) : List JSObj :=
  (items.map Prod.snd).filter (fun v => allMatch selector v)

/-! ## The backend iteration -/

theorem iterateFrom_cons_none {σ β : Type}
    (cb : σ → JSObj → String → Nat → σ × Option β)
    (k : String) (v : JSObj) (rest : List (String × JSObj)) (n : Nat) (s : σ)
    (h : (cb s v k n).2 = none) :
    iterateFrom cb ((k, v) :: rest) n s = iterateFrom cb rest (n + 1) (cb s v k n).1 := by
  rcases hcb : cb s v k n with ⟨s1, _ | x⟩
  · simp [iterateFrom, hcb]
  · rw [hcb] at h; cases h

theorem iterateFrom_cons_some {σ β : Type}
    (cb : σ → JSObj → String → Nat → σ × Option β)
    (k : String) (v : JSObj) (rest : List (String × JSObj)) (n : Nat) (s : σ) (x : β)
    (h : (cb s v k n).2 = some x) :
    iterateFrom cb ((k, v) :: rest) n s = ((cb s v k n).1, some x) := by
  rcases hcb : cb s v k n with ⟨s1, _ | y⟩
  · rw [hcb] at h; cases h
  · rw [hcb] at h; cases h; simp [iterateFrom, hcb]

/-! ## `find`: the total -/

theorem findCallback_includeTotal_snd (selector : JSObj) (offset limit : Int) (st : FindState)
    (v : JSObj) (k : String) (n : Nat) :
    (findCallback selector offset limit true st v k n).2 = none := by
  unfold findCallback
  simp only []
  split_ifs <;> simp_all

theorem findCallback_includeTotal_total (selector : JSObj) (offset limit : Int) (st : FindState)
    (v : JSObj) (k : String) (n : Nat) :
    (findCallback selector offset limit true st v k n).1.total =
      st.total + (if allMatch selector v then 1 else 0) := by
  unfold findCallback
  simp only []
  split_ifs <;> simp_all

theorem iterateFrom_find_total (selector : JSObj) (offset limit : Int) :
    ∀ (items : List (String × JSObj)) (n : Nat) (st : FindState),
      (iterateFrom (findCallback selector offset limit true) items n st).1.total =
        st.total + (items.filter (fun kv => allMatch selector kv.2)).length
  | [], _, _ => by simp [iterateFrom]
  | (k, v) :: rest, n, st => by
    rw [iterateFrom_cons_none _ _ _ _ _ _ (findCallback_includeTotal_snd _ _ _ _ _ _ _),
      iterateFrom_find_total selector offset limit rest (n + 1),
      findCallback_includeTotal_total]
    by_cases h : allMatch selector v <;> simp [List.filter_cons, h]
    omega

/-! ## `find`: the window does not depend on `includeTotal` -/

theorem iterateFrom_find_full (selector : JSObj) (offset limit : Int) :
    ∀ (items : List (String × JSObj)) (n : Nat) (st : FindState),
      ¬ ((st.set.length : Int) < offset + limit) →
      (iterateFrom (findCallback selector offset limit true) items n st).1.set = st.set
  | [], _, _, _ => by simp [iterateFrom]
  | (k, v) :: rest, n, st, hfull => by
    rw [iterateFrom_cons_none _ _ _ _ _ _ (findCallback_includeTotal_snd _ _ _ _ _ _ _)]
    have hset : (findCallback selector offset limit true st v k n).1.set = st.set := by
      unfold findCallback
      simp only []
      split_ifs with h1 h2
      all_goals simp_all
      omega
    rw [iterateFrom_find_full selector offset limit rest (n + 1) _ (by rw [hset]; exact hfull),
      hset]

theorem iterateFrom_find_set (selector : JSObj) (offset limit : Int) :
    ∀ (items : List (String × JSObj)) (n : Nat) (st : FindState),
      (iterateFrom (findCallback selector offset limit false) items n st).1.set =
        (iterateFrom (findCallback selector offset limit true) items n st).1.set
  | [], _, _ => by simp [iterateFrom]
  | (k, v) :: rest, n, st => by
    rw [iterateFrom_cons_none _ k v rest n st (findCallback_includeTotal_snd _ _ _ _ _ _ _)]
    by_cases hexit : allMatch selector v = true ∧ st.skipping = false ∧
        ¬ ((st.set.length : Int) < offset + limit)
    · obtain ⟨hm, hs, hfull⟩ := hexit
      have hF : findCallback selector offset limit false st v k n =
          ({ set := st.set, total := st.total + 1, skipping := st.skipping }, some st.set) := by
        unfold findCallback
        simp [hm, hs, hfull]
      have hT : (findCallback selector offset limit true st v k n).1.set = st.set := by
        unfold findCallback
        simp [hm, hs, hfull]
      rw [iterateFrom_cons_some _ k v rest n st st.set (by rw [hF]), hF,
        iterateFrom_find_full selector offset limit rest (n + 1) _ (by rw [hT]; exact hfull), hT]
    · have hsame : findCallback selector offset limit false st v k n =
          findCallback selector offset limit true st v k n := by
        unfold findCallback
        simp only []
        split_ifs <;> simp_all
      rw [iterateFrom_cons_none _ k v rest n st
        (by rw [hsame]; exact findCallback_includeTotal_snd _ _ _ _ _ _ _), hsame]
      exact iterateFrom_find_set selector offset limit rest (n + 1) _

/-! ## `find`: the window -/

theorem iterateFrom_find_window (selector : JSObj) (offset limit : Int)
    (hpos : 0 < offset + limit) :
    ∀ (items : List (String × JSObj)) (n : Nat) (st : FindState),
      st.skipping = decide ((st.total : Int) < offset) →
      st.set.length ≤ (offset + limit).toNat →
      (st.set ≠ [] → offset.toNat ≤ st.total) →
      (iterateFrom (findCallback selector offset limit true) items n st).1.set =
        st.set ++ ((matching selector items).drop (offset.toNat - st.total)).take
          ((offset + limit).toNat - st.set.length)
  | [], _, _, _, _, _ => by simp [iterateFrom, matching]
  | (k, v) :: rest, n, st, hsk, hlen, hne => by
    rw [iterateFrom_cons_none _ k v rest n st (findCallback_includeTotal_snd _ _ _ _ _ _ _)]
    have ih := iterateFrom_find_window selector offset limit hpos rest (n + 1)
      (findCallback selector offset limit true st v k n).1
    by_cases hm : allMatch selector v = true
    · have hmt : matching selector ((k, v) :: rest) = v :: matching selector rest := by
        simp [matching, List.filter_cons, hm]
      by_cases hs : (st.total : Int) < offset
      · -- still skipping: nothing was collected so far
        have hset : st.set = [] := by
          by_contra hc
          have := hne hc
          omega
        have hcb : findCallback selector offset limit true st v k n =
            ({ set := st.set, total := st.total + 1,
               skipping := decide (((st.total + 1 : Nat) : Int) < offset) }, none) := by
          unfold findCallback
          simp [hm, hsk, hs, hset]
          omega
        rw [hcb] at ih ⊢
        rw [ih (by simp) hlen (fun hc => absurd hset hc), hmt]
        have hd : offset.toNat - st.total = (offset.toNat - (st.total + 1)) + 1 := by omega
        simp only [hd, List.drop_succ_cons]
      · by_cases hfull : (st.set.length : Int) < offset + limit
        · -- past the offset, window not full: the record is appended
          have hcb : findCallback selector offset limit true st v k n =
              ({ set := st.set ++ [v], total := st.total + 1,
                 skipping := decide (((st.total + 1 : Nat) : Int) < offset) }, none) := by
            unfold findCallback
            simp [hm, hsk, hs, hfull]
            omega
          rw [hcb] at ih ⊢
          rw [ih (by simp) (by simp only [List.length_append, List.length_singleton]; omega)
            (fun _ => by show offset.toNat ≤ st.total + 1; omega), hmt]
          have hd0 : offset.toNat - st.total = 0 := by omega
          have hd1 : offset.toNat - (st.total + 1) = 0 := by omega
          have ht : (offset + limit).toNat - st.set.length =
              ((offset + limit).toNat - (st.set ++ [v]).length) + 1 := by
            simp only [List.length_append, List.length_singleton]; omega
          simp only [hd0, hd1, ht, List.drop_zero, List.take_succ_cons, List.append_assoc,
            List.singleton_append]
        · -- past the offset, window full: the record is only counted
          have hcb : findCallback selector offset limit true st v k n =
              ({ set := st.set, total := st.total + 1,
                 skipping := decide (((st.total + 1 : Nat) : Int) < offset) }, none) := by
            unfold findCallback
            simp [hm, hsk, hs, hfull]
            omega
          rw [hcb] at ih ⊢
          rw [ih (by simp) hlen (fun _ => by show offset.toNat ≤ st.total + 1; omega)]
          have ht : (offset + limit).toNat - st.set.length = 0 := by omega
          simp only [ht, List.take_zero]
    · have hmt : matching selector ((k, v) :: rest) = matching selector rest := by
        simp [matching, List.filter_cons, hm]
      have hcb : findCallback selector offset limit true st v k n =
          ({ set := st.set, total := st.total,
             skipping := decide ((st.total : Int) < offset) }, none) := by
        unfold findCallback
        simp [hm]
        omega
      rw [hcb] at ih ⊢
      rw [ih (by simp) hlen hne, hmt]

/-- The window of `find`: the matching records after the first `offset`, up to
`offset + limit` of them, sorted; with or without the total. -/
theorem find_data_eq (self : LocalForage) (db : DB) (props : FindProps) :
    (self.find db props).data =
      _buildSortFn props.sort
        (((matching props.selector db.items).drop (orDefault props.offset 0).toNat).take
          (orDefault props.offset 0 + orDefault props.limit self.querySizeLimit).toNat) := by
  have hdata : (self.find db props).data = _buildSortFn props.sort
      (iterateFrom (findCallback props.selector (orDefault props.offset 0)
        (orDefault props.limit self.querySizeLimit) true) db.items 1
        { set := [], total := 0, skipping := decide (orDefault props.offset 0 > 0) }).1.set := by
    unfold LocalForage.find DB.iterate
    cases hinc : props.includeTotal
    · simp only [Bool.false_eq_true, if_false, FindResult.data]
      rw [iterateFrom_find_set]
    · simp only [if_true, FindResult.data]
  rw [hdata]
  by_cases hpos : 0 < orDefault props.offset 0 + orDefault props.limit self.querySizeLimit
  · rw [iterateFrom_find_window _ _ _ hpos _ _ _ (by simp) (by simp) (by simp)]
    simp
  · rw [iterateFrom_find_full _ _ _ _ _ _ (by simpa using hpos)]
    have h0 : (orDefault props.offset 0 + orDefault props.limit self.querySizeLimit).toNat = 0 := by
      omega
    simp [h0]

/-! ## Point operations -/

theorem lookup_upsert (key : String) (value : JSObj) :
    ∀ items : List (String × JSObj), (upsert key value items).lookup key = some value
  | [] => by simp [upsert, List.lookup]
  | (k, v) :: rest => by
    by_cases h : k = key
    · simp [upsert, h, List.lookup]
    · have hne : (key == k) = false := by
        simpa using fun hk : key = k => h hk.symm
      simp [upsert, h, List.lookup, hne, lookup_upsert key value rest]

theorem lookup_filter_ne (key : String) (items : List (String × JSObj)) :
    (items.filter (fun kv => decide (kv.1 ≠ key))).lookup key = none := by
  induction items with
  | nil => rfl
  | cons kv rest ih =>
    obtain ⟨k, v⟩ := kv
    by_cases h : k = key
    · simpa [List.filter_cons, h] using ih
    · have hne : (key == k) = false := by
        simpa using fun hk : key = k => h hk.symm
      simpa [List.filter_cons, h, List.lookup, hne] using ih

/-! ## `iterate` -/

theorem iterateFrom_logging {β : Type} (f : JSObj → String → Nat → Option β)
    (rest : List (String × JSObj)) :
    ∀ (pre : List (String × JSObj)) (n : Nat) (log : List (String × JSObj)),
      (∀ i (h : i < pre.length), f pre[i].2 pre[i].1 (n + i) = none) →
      (∀ k v post, rest = (k, v) :: post → f v k (n + pre.length) ≠ none) →
      iterateFrom (logging f) (pre ++ rest) n log =
        (log ++ pre ++ rest.take 1,
          rest.head?.bind (fun kv => f kv.2 kv.1 (n + pre.length)))
  | [], n, log, _, hstop => by
    cases rest with
    | nil => simp [iterateFrom]
    | cons kv post =>
      obtain ⟨k, v⟩ := kv
      have hx := hstop k v post rfl
      simp only [List.length_nil, Nat.add_zero] at hx
      rcases hx1 : f v k n with _ | x
      · exact absurd hx1 hx
      rw [List.nil_append, iterateFrom_cons_some _ k v post n log x (by simp [logging, hx1])]
      simp [logging, hx1]
  | (k0, v0) :: pre, n, log, hpre, hstop => by
    have h0 : f v0 k0 n = none := by simpa using hpre 0 (by simp)
    have hrest : ∀ i (h : i < pre.length), f pre[i].2 pre[i].1 (n + 1 + i) = none := by
      intro i hi
      have := hpre (i + 1) (by simpa using hi)
      rw [show n + (i + 1) = n + 1 + i by omega] at this
      simpa using this
    have hlen : n + 1 + pre.length = n + ((k0, v0) :: pre).length := by
      simp only [List.length_cons]; omega
    have hstop1 : ∀ k v post, rest = (k, v) :: post → f v k (n + 1 + pre.length) ≠ none := by
      intro k v post h
      rw [hlen]
      exact hstop k v post h
    have ih := iterateFrom_logging f rest pre (n + 1) (log ++ [(k0, v0)]) hrest hstop1
    rw [List.cons_append, iterateFrom_cons_none _ k0 v0 _ n log (by simp [logging, h0])]
    rw [hlen] at ih
    simpa [logging] using ih

/-! ## The selector match -/

theorem strictEq_coerced (v tgt : JSVal) :
    strictEq (minusZero v) (minusZero tgt) = JSNum.eq (toNumber v) (toNumber tgt) := by
  simp [minusZero, strictEq]

theorem selectorLoop_iff (selector dbVal : JSObj) :
    ∀ ks : List String,
      selectorLoop selector dbVal ks = true ↔
        ∀ p ∈ ks, fieldAgrees notNaN (getField dbVal p) (getField selector p) = true
  | [] => by simp [selectorLoop]
  | p :: rest => by
    have ih := selectorLoop_iff selector dbVal rest
    have hstep : strictEq
        (if (!isNaN (getField dbVal p) && !isNaN (getField selector p)) = true
          then minusZero (getField dbVal p) else getField dbVal p)
        (if (!isNaN (getField dbVal p) && !isNaN (getField selector p)) = true
          then minusZero (getField selector p) else getField selector p) =
        fieldAgrees notNaN (getField dbVal p) (getField selector p) := by
      unfold fieldAgrees notNaN
      by_cases hc : (!isNaN (getField dbVal p) && !isNaN (getField selector p)) = true
      · rw [if_pos hc, if_pos hc, if_pos hc]
        exact strictEq_coerced _ _
      · rw [if_neg hc, if_neg hc, if_neg hc]
    unfold selectorLoop
    simp only [hstep, List.mem_cons, forall_eq_or_imp]
    by_cases hf : fieldAgrees notNaN (getField dbVal p) (getField selector p) = true
    · simp [hf, ih]
    · simp [hf]

/-! ## Sorting -/

theorem JSNum.lt_asymm (a b : JSNum) (h : JSNum.lt a b = true) : JSNum.lt b a = false := by
  cases a <;> cases b <;> simp_all [JSNum.lt]
  omega

theorem jsLt_asymm (u v : JSVal) (h : jsLt u v = true) : jsLt v u = false := by
  unfold jsLt at h ⊢
  split at h
  · simp only [decide_eq_true_eq] at h
    simp only [decide_eq_false_iff_not]
    exact lt_asymm h
  · rename_i hns
    split
    · rename_i s t
      exact (hns t s rfl rfl).elim
    · exact JSNum.lt_asymm _ _ h

theorem jsLt_irrefl (u : JSVal) : jsLt u u = false := by
  cases h : jsLt u u
  · rfl
  · rw [jsLt_asymm u u h] at h; cases h

theorem compareFn_asc_le (fld : String) (a b : JSObj) :
    compareFn fld true a b ≤ 0 ↔ jsGt (getField a fld) (getField b fld) = false := by
  unfold compareFn
  simp only []
  split_ifs <;> simp_all

theorem compareFn_desc_le (fld : String) (a b : JSObj) :
    compareFn fld false a b ≤ 0 ↔ jsLt (getField a fld) (getField b fld) = false := by
  unfold compareFn
  simp only []
  by_cases h1 : jsGt (getField a fld) (getField b fld) = true
  · have h3 : jsLt (getField a fld) (getField b fld) = false := jsLt_asymm _ _ h1
    simp [h1, h3]
  · by_cases h2 : jsLt (getField a fld) (getField b fld) = true
    · simp [h1, h2]
    · simp [h1, h2]

theorem Comparable.not_lt_trans {fld : String} {l : List JSObj} (h : Comparable fld l)
    {x y z : JSObj} (hx : x ∈ l) (hy : y ∈ l) (hz : z ∈ l)
    (hxy : jsLt (getField y fld) (getField x fld) = false)
    (hyz : jsLt (getField z fld) (getField y fld) = false) :
    jsLt (getField z fld) (getField x fld) = false := by
  by_contra hzx
  have hzx1 : jsLt (getField z fld) (getField x fld) = true := by simpa using hzx
  by_cases h1 : jsLt (getField x fld) (getField y fld) = true
  · have := h.1 z hz x hx y hy hzx1 h1
    rw [hyz] at this; cases this
  · by_cases h2 : jsLt (getField y fld) (getField z fld) = true
    · have := h.1 y hy z hz x hx h2 hzx1
      rw [hxy] at this; cases this
    · have t1 : tie (getField x fld) (getField y fld) = true := by simp_all [tie]
      have t2 : tie (getField y fld) (getField z fld) = true := by simp_all [tie]
      have t3 := h.2 x hx y hy z hz t1 t2
      simp [tie] at t3
      rw [t3.2] at hzx1; cases hzx1

theorem Comparable.tie_trans {fld : String} {l : List JSObj} (h : Comparable fld l)
    {x y z : JSObj} (hx : x ∈ l) (hy : y ∈ l) (hz : z ∈ l)
    (hxz : tie (getField x fld) (getField z fld) = true)
    (hyz : tie (getField y fld) (getField z fld) = true) :
    tie (getField x fld) (getField y fld) = true := by
  have hzy : tie (getField z fld) (getField y fld) = true := by
    simp only [tie, Bool.and_eq_true] at hyz ⊢
    exact ⟨hyz.2, hyz.1⟩
  exact h.2 x hx z hz y hy hxz hzy

theorem Comparable.of_perm {fld : String} {l m : List JSObj} (h : Comparable fld l)
    (hp : m.Perm l) : Comparable fld m :=
  ⟨fun x hx y hy z hz => h.1 x (hp.mem_iff.1 hx) y (hp.mem_iff.1 hy) z (hp.mem_iff.1 hz),
   fun x hx y hy z hz => h.2 x (hp.mem_iff.1 hx) y (hp.mem_iff.1 hy) z (hp.mem_iff.1 hz)⟩

theorem pairwise_orderedInsert_of {α : Type} (r : α → α → Prop) [DecidableRel r]
    (P : α → Prop) (htot : ∀ x y, P x → P y → ¬ r x y → r y x)
    (htr : ∀ x y z, P x → P y → P z → r x y → r y z → r x z) (a : α) (ha : P a) :
    ∀ s : List α, (∀ x ∈ s, P x) → s.Pairwise r → (s.orderedInsert r a).Pairwise r
  | [], _, _ => by simp
  | b :: s, hP, hs => by
    have hPb : P b := hP b (by simp)
    have hPs : ∀ x ∈ s, P x := fun x hx => hP x (by simp [hx])
    have hs1 := List.pairwise_cons.1 hs
    by_cases hab : r a b
    · rw [List.orderedInsert, if_pos hab]
      refine List.pairwise_cons.2 ⟨?_, hs⟩
      intro x hx
      rcases List.mem_cons.1 hx with rfl | hx
      · exact hab
      · exact htr a b x ha hPb (hPs x hx) hab (hs1.1 x hx)
    · rw [List.orderedInsert, if_neg hab]
      refine List.pairwise_cons.2
        ⟨?_, pairwise_orderedInsert_of r P htot htr a ha s hPs hs1.2⟩
      intro x hx
      rcases (List.mem_orderedInsert r).1 hx with rfl | hx
      · exact htot _ b ha hPb hab
      · exact hs1.1 x hx

theorem pairwise_insertionSort_of {α : Type} (r : α → α → Prop) [DecidableRel r]
    (P : α → Prop) (htot : ∀ x y, P x → P y → ¬ r x y → r y x)
    (htr : ∀ x y z, P x → P y → P z → r x y → r y z → r x z) :
    ∀ l : List α, (∀ x ∈ l, P x) → (l.insertionSort r).Pairwise r
  | [], _ => by simp
  | a :: l, hP => by
    rw [List.insertionSort]
    exact pairwise_orderedInsert_of r P htot htr a (hP a (by simp)) _
      (fun x hx => hP x (List.mem_cons_of_mem _ ((List.mem_insertionSort r).1 hx)))
      (pairwise_insertionSort_of r P htot htr l (fun x hx => hP x (List.mem_cons_of_mem _ hx)))

theorem filter_insertionSort_of {α : Type} (r : α → α → Prop) [DecidableRel r]
    (p : α → Bool) (l : List α)
    (h : ∀ x ∈ l, ∀ y ∈ l, p x = true → p y = true → r x y) :
    (l.insertionSort r).filter p = l.filter p := by
  have hpw : (l.filter p).Pairwise r := by
    apply List.pairwise_of_forall_mem_list
    intro x hx y hy
    rw [List.mem_filter] at hx hy
    exact h x hx.1 y hy.1 hx.2 hy.2
  have hsub : (l.filter p).Sublist (l.insertionSort r) :=
    List.sublist_insertionSort hpw (List.filter_sublist l)
  have hsub2 : (l.filter p).Sublist ((l.insertionSort r).filter p) := by
    simpa using hsub.filter p
  have hlen : ((l.insertionSort r).filter p).length = (l.filter p).length :=
    ((List.perm_insertionSort r l).filter p).length_eq
  exact (hsub2.eq_of_length hlen.symm).symm

theorem buildSortFn_sortTwo (fa fb : String) (l : List JSObj) :
    _buildSortFn (sortTwo fa fb) l =
      (l.insertionSort (fun a b => compareFn fa true a b ≤ 0)).insertionSort
        (fun a b => compareFn fb false a b ≤ 0) := by
  have h1 : (toUpperCase "asc" == "ASC") = true := by decide
  have h2 : (toUpperCase "desc" == "ASC") = false := by decide
  simp [_buildSortFn, sortTwo, sorter, arraySort, h1, h2]

theorem tie_self (u : JSVal) : tie u u = true := by
  simp [tie, jsLt_irrefl]

theorem tie_symm (u v : JSVal) (h : tie u v = true) : tie v u = true := by
  simp only [tie, Bool.and_eq_true] at h ⊢
  exact ⟨h.2, h.1⟩

theorem pairwise_asc_pass (fld : String) (l : List JSObj) (h : Comparable fld l) :
    (l.insertionSort (fun a b => compareFn fld true a b ≤ 0)).Pairwise
      (fun a b => compareFn fld true a b ≤ 0) := by
  refine pairwise_insertionSort_of _ (fun x => x ∈ l) ?_ ?_ l (fun x hx => hx)
  · intro x y _ _ hxy
    rw [compareFn_asc_le] at hxy ⊢
    have hlt : jsLt (getField y fld) (getField x fld) = true := by simpa [jsGt] using hxy
    exact jsLt_asymm _ _ hlt
  · intro x y z hx hy hz hxy hyz
    rw [compareFn_asc_le] at hxy hyz ⊢
    exact h.not_lt_trans hx hy hz hxy hyz

theorem pairwise_desc_pass (fld : String) (l : List JSObj) (h : Comparable fld l) :
    (l.insertionSort (fun a b => compareFn fld false a b ≤ 0)).Pairwise
      (fun a b => compareFn fld false a b ≤ 0) := by
  refine pairwise_insertionSort_of _ (fun x => x ∈ l) ?_ ?_ l (fun x hx => hx)
  · intro x y _ _ hxy
    rw [compareFn_desc_le] at hxy ⊢
    have hlt : jsLt (getField x fld) (getField y fld) = true := by simpa using hxy
    exact jsLt_asymm _ _ hlt
  · intro x y z hx hy hz hxy hyz
    rw [compareFn_desc_le] at hxy hyz ⊢
    exact h.not_lt_trans hz hy hx hyz hxy

theorem buildSortFn_perm (sort : Option (List SortSpec)) (set : List JSObj) :
    (_buildSortFn sort set).Perm set := by
  unfold _buildSortFn
  generalize sort.getD [{ field := "blockNumber", order := "desc" }] = passes
  induction passes generalizing set with
  | nil => exact List.Perm.refl _
  | cons s rest ih =>
    rw [List.foldl_cons]
    exact (ih _).trans (List.perm_insertionSort _ set)

/-- The size of the window of `find` for an offset `o` and a limit `l ≥ 1`. -/
theorem find_length (self : LocalForage) (db : DB) (selector : JSObj)
    (sort : Option (List SortSpec)) (o l : Nat) (hl : 1 ≤ l) (includeTotal : Bool) :
    (self.find db
        { selector := selector, sort := sort, limit := some (l : Int),
          offset := some (o : Int), includeTotal := includeTotal }).data.length =
      min (o + l) ((matching selector db.items).length - o) := by
  rw [find_data_eq, (buildSortFn_perm _ _).length_eq]
  have hl1 : orDefault (some (l : Int)) self.querySizeLimit = l := by
    simp only [orDefault]
    rw [if_neg (by omega)]
  have ho1 : orDefault (some (o : Int)) 0 = o := by
    simp only [orDefault]
    split_ifs with h
    · omega
    · rfl
  simp only [hl1, ho1, List.length_take, List.length_drop]
  have h1 : ((o : Int) + (l : Int)).toNat = o + l := by omega
  have h2 : ((o : Int)).toNat = o := by omega
  rw [h1, h2]

theorem enumFrom_readAll_beyond (limit : Int) (keep : Nat × String × JSObj → Bool) :
    ∀ (items : List (String × JSObj)) (n : Nat), limit < (n : Int) →
      (items.enumFrom n).filter (fun p => decide ((p.1 : Int) ≤ limit) && keep p) = []
  | [], _, _ => rfl
  | kv :: rest, n, h => by
    have hn : ¬ ((n : Int) ≤ limit) := by omega
    rw [List.enumFrom_cons, List.filter_cons]
    simp only [hn, decide_False, Bool.false_and, Bool.false_eq_true, if_false]
    exact enumFrom_readAll_beyond limit keep rest (n + 1) (by omega)

theorem iterateFrom_readAll (limit : Int) (filterFn : Option (JSObj → String → Nat → Bool)) :
    ∀ (items : List (String × JSObj)) (n : Nat) (set : List JSObj),
      (iterateFrom (readAllCallback limit filterFn) items n set).1 =
        set ++ ((items.enumFrom n).filter (fun p => decide ((p.1 : Int) ≤ limit) &&
          (match filterFn with
            | some f => f p.2.2 p.2.1 p.1
            | none => true))).map (fun p => p.2.2)
  | [], _, _ => by simp [iterateFrom]
  | (k, v) :: rest, n, set => by
    by_cases hn : (n : Int) > limit
    · rw [iterateFrom_cons_some _ k v rest n set set (by simp [readAllCallback, hn]),
        enumFrom_readAll_beyond limit _ _ n hn]
      simp [readAllCallback, hn]
    · have hle : (n : Int) ≤ limit := by omega
      have hnone : (readAllCallback limit filterFn set v k n).2 = none := by
        unfold readAllCallback
        rw [if_neg hn]
        cases filterFn with
        | none => rfl
        | some f => dsimp only; split_ifs <;> rfl
      rw [iterateFrom_cons_none _ k v rest n set hnone,
        iterateFrom_readAll limit filterFn rest (n + 1), List.enumFrom_cons, List.filter_cons]
      unfold readAllCallback
      rw [if_neg hn]
      cases filterFn with
      | none => simp [hle]
      | some f =>
        dsimp only
        by_cases hf : f v k n = true
        · simp [hle, hf]
        · simp [hle, hf]

/-- The result of `readAll`: the records visited at an ordinal up to the limit
that pass the filter, sorted. -/
theorem readAll_eq (self : LocalForage) (db : DB) (props : ReadAllProps) :
    self.readAll db props =
      _buildSortFn props.sort
        (((db.items.enumFrom 1).filter (fun p =>
            decide ((p.1 : Int) ≤ orDefault props.limit self.querySizeLimit) &&
            (match props.filterFn with
              | some f => f p.2.2 p.2.1 p.1
              | none => true))).map (fun p => p.2.2)) := by
  unfold LocalForage.readAll DB.iterate
  simp only []
  rw [iterateFrom_readAll]
  simp

/-! ## The number conversions on known values -/

theorem stringToNumber_samples :
    stringToNumber "" = JSNum.fin false 0 0 ∧
    stringToNumber "-0" = JSNum.fin true 0 0 ∧
    stringToNumber "1" = JSNum.fin false 1023 0 ∧
    stringToNumber "0.1" = JSNum.fin false 1019 2702159776422298 ∧
    stringToNumber "9007199254740993" = JSNum.fin false 1076 0 ∧
    stringToNumber "9007199254740995" = JSNum.fin false 1076 2 ∧
    stringToNumber " -Infinity " = JSNum.inf true ∧
    stringToNumber "0b101" = JSNum.ofInt 5 ∧
    stringToNumber "0o17" = JSNum.ofInt 15 ∧
    stringToNumber "0XfF" = JSNum.ofInt 255 ∧
    stringToNumber "5." = JSNum.ofInt 5 ∧
    stringToNumber "-0x10" = JSNum.nan ∧
    stringToNumber "." = JSNum.nan ∧
    stringToNumber "1e" = JSNum.nan ∧
    stringToNumber "1_000" = JSNum.nan ∧
    stringToNumber "12px" = JSNum.nan := by
  decide

theorem ofInt_samples :
    JSNum.ofInt 0 = JSNum.fin false 0 0 ∧
    JSNum.ofInt 5 = JSNum.fin false 1025 1125899906842624 ∧
    JSNum.ofInt (-1) = JSNum.fin true 1023 0 ∧
    JSNum.ofInt 9007199254740992 = JSNum.fin false 1076 0 ∧
    JSNum.ofInt 9007199254740993 = JSNum.fin false 1076 0 := by
  decide

set_option maxRecDepth 10000 in
theorem stringToNumber_extremes :
    stringToNumber "1.7976931348623157e308" = JSNum.fin false 2046 4503599627370495 ∧
    stringToNumber "1.7976931348623159e308" = JSNum.inf false ∧
    stringToNumber "2.2250738585072014e-308" = JSNum.fin false 1 0 ∧
    stringToNumber "2.2250738585072011e-308" = JSNum.fin false 0 4503599627370495 ∧
    stringToNumber "5e-324" = JSNum.fin false 0 1 ∧
    stringToNumber "2e-324" = JSNum.fin false 0 0 := by
  decide

/-! ## The claims -/

/-- C1. On the scenario of the specification (records `n = 1 .. 10`, empty
selector, limit 3, offset 4) `find` returns the six records `n = 5 .. 10`, not
the three records `n = 5, 6, 7`: the window is filled up to `offset + limit`
records. -/
theorem find_scenario_window :
    (LocalForage.new none).find tenStore
        { selector := [], sort := sortByN, limit := some 3, offset := some 4,
          includeTotal := false } =
      FindResult.list [recN 5, recN 6, recN 7, recN 8, recN 9, recN 10] := by
  decide

/-- C2. With `includeTotal` set, `find` returns the pair of a total and a window,
and the total is the number of records of the whole store that match the
selector, whatever `limit`, `offset` and `sort` are. -/
theorem find_total_counts_all_matches (self : LocalForage) (db : DB) (selector : JSObj)
    (sort : Option (List SortSpec)) (limit offset : Option Int) :
    ∃ data, self.find db
        { selector := selector, sort := sort, limit := limit, offset := offset,
          includeTotal := true } =
      FindResult.withTotal (db.items.filter (fun kv => allMatch selector kv.2)).length data := by
  refine ⟨_buildSortFn sort (db.iterate (findCallback selector (orDefault offset 0)
    (orDefault limit self.querySizeLimit) true)
    { set := [], total := 0, skipping := decide (orDefault offset 0 > 0) }).1.set, ?_⟩
  simp only [LocalForage.find, DB.iterate, if_true]
  rw [iterateFrom_find_total]
  simp

/-- C3. With limit 3 on the records `n = 1 .. 10`, page 1 (offset 3) is the six
records `n = 4 .. 9` and page 2 (offset 6) is `n = 7 .. 10`: consecutive pages
share the records `n = 7, 8, 9`. -/
theorem find_pages_overlap :
    (LocalForage.new none).find tenStore
        { selector := [], sort := sortByN, limit := some 3, offset := some 3,
          includeTotal := false } =
      FindResult.list [recN 4, recN 5, recN 6, recN 7, recN 8, recN 9] ∧
    (LocalForage.new none).find tenStore
        { selector := [], sort := sortByN, limit := some 3, offset := some 6,
          includeTotal := false } =
      FindResult.list [recN 7, recN 8, recN 9, recN 10] := by
  decide

/-- C4. For every list whose fields `fa` and `fb` are comparable, the sort built
from `[fa ascending, fb descending]` returns a permutation of the list, ordered
by `fb` descending and, among records tying on `fb`, by `fa` ascending; the
records tying with any given record on both fields keep their original order. -/
theorem buildSortFn_last_entry_dominates (fa fb : String) (l : List JSObj)
    (ha : Comparable fa l) (hb : Comparable fb l) :
    (_buildSortFn (sortTwo fa fb) l).Perm l ∧
    (_buildSortFn (sortTwo fa fb) l).Pairwise (orderedBy fa fb) ∧
    ∀ x0 ∈ l,
      (_buildSortFn (sortTwo fa fb) l).filter (tiesOn fa fb x0) =
        l.filter (tiesOn fa fb x0) := by
  rw [buildSortFn_sortTwo]
  have hmp : (l.insertionSort (fun a b => compareFn fa true a b ≤ 0)).Perm l :=
    List.perm_insertionSort _ l
  have hbm := hb.of_perm hmp
  have hms := pairwise_asc_pass fa l ha
  have hos := pairwise_desc_pass fb _ hbm
  generalize hm : l.insertionSort (fun a b => compareFn fa true a b ≤ 0) = m at *
  have hop : (m.insertionSort (fun a b => compareFn fb false a b ≤ 0)).Perm m :=
    List.perm_insertionSort _ m
  refine ⟨hop.trans hmp, ?_, ?_⟩
  · rw [List.pairwise_iff_forall_sublist]
    intro x y hxy
    have hxo := hxy.subset (List.mem_cons_self x _)
    have hyo := hxy.subset (List.mem_cons_of_mem x (List.mem_cons_self y _))
    have hxm := hop.mem_iff.1 hxo
    have hym := hop.mem_iff.1 hyo
    have hr2 := (List.pairwise_iff_forall_sublist.1 hos) hxy
    rw [compareFn_desc_le] at hr2
    by_cases hgt : jsGt (getField x fb) (getField y fb) = true
    · exact Or.inl hgt
    · have hlt : jsLt (getField y fb) (getField x fb) = false := by simpa [jsGt] using hgt
      have hxyt : tie (getField x fb) (getField y fb) = true := by simp [tie, hr2, hlt]
      refine Or.inr ⟨hxyt, ?_⟩
      have hfil := filter_insertionSort_of (fun a b => compareFn fb false a b ≤ 0)
        (fun r => tie (getField r fb) (getField x fb)) m (by
          intro u hu w hw hu1 hw1
          rw [compareFn_desc_le]
          have := hbm.tie_trans hu hw hxm hu1 hw1
          simp only [tie, Bool.and_eq_true, Bool.not_eq_eq_eq_not, Bool.not_true] at this
          exact this.1)
      have hsub := hxy.filter (fun r => tie (getField r fb) (getField x fb))
      rw [hfil] at hsub
      have hpair : [x, y].filter (fun r => tie (getField r fb) (getField x fb)) = [x, y] := by
        simp [List.filter_cons, tie_self, tie_symm _ _ hxyt]
      rw [hpair] at hsub
      have hr1 := (List.pairwise_iff_forall_sublist.1 hms) (hsub.trans (List.filter_sublist m))
      rwa [compareFn_asc_le] at hr1
  · intro x0 hx0
    have hx0m := hmp.mem_iff.2 hx0
    have h2 := filter_insertionSort_of (fun a b => compareFn fb false a b ≤ 0)
      (tiesOn fa fb x0) m (by
        intro u hu w hw hu1 hw1
        rw [compareFn_desc_le]
        simp only [tiesOn, Bool.and_eq_true] at hu1 hw1
        have := hbm.tie_trans hu hw hx0m hu1.2 hw1.2
        simp only [tie, Bool.and_eq_true, Bool.not_eq_eq_eq_not, Bool.not_true] at this
        exact this.1)
    have h1 := filter_insertionSort_of (fun a b => compareFn fa true a b ≤ 0)
      (tiesOn fa fb x0) l (by
        intro u hu w hw hu1 hw1
        rw [compareFn_asc_le]
        simp only [tiesOn, Bool.and_eq_true] at hu1 hw1
        have := ha.tie_trans hu hw hx0 hu1.1 hw1.1
        simp only [tie, Bool.and_eq_true, Bool.not_eq_eq_eq_not, Bool.not_true] at this
        exact this.2)
    rw [h2, ← hm, h1]

/-- C4, instance: the sample list satisfies the hypotheses, so its sort is a
permutation in the order `b` descending then `a` ascending that keeps ties in
place. -/
theorem buildSortFn_last_entry_dominates_witness :
    Comparable "a" sampleAB ∧ Comparable "b" sampleAB ∧
    ((_buildSortFn (sortTwo "a" "b") sampleAB).Perm sampleAB ∧
      (_buildSortFn (sortTwo "a" "b") sampleAB).Pairwise (orderedBy "a" "b") ∧
      ∀ x0 ∈ sampleAB,
        (_buildSortFn (sortTwo "a" "b") sampleAB).filter (tiesOn "a" "b" x0) =
          sampleAB.filter (tiesOn "a" "b" x0)) :=
  have ha : Comparable "a" sampleAB := by unfold Comparable; decide
  have hb : Comparable "b" sampleAB := by unfold Comparable; decide
  ⟨ha, hb, buildSortFn_last_entry_dominates "a" "b" sampleAB ha hb⟩

/-- C5, as stated, fails: the record `{flag: true}` is kept by the selector
`{flag: 1}`, although `true` is neither a number nor a numeric string and is not
strictly equal to `1`. -/
theorem allMatch_coerces_booleans :
    ¬ (allMatch flagSelector flagRecord = true ↔
        ∀ p ∈ keys flagSelector,
          fieldAgrees specNumericLike (getField flagRecord p) (getField flagSelector p) =
            true) := by
  decide

/-- C5, amended. A record is kept iff for every selector field the record's value
agrees with the selector's value, where two values whose numeric conversion is
not `NaN` (numbers, numeric and blank strings, `null`, booleans) agree when their
numeric values are equal, and any other pair when strictly equal.  So the
record `{amount: 5}` is kept by the selector `{amount: "5"}`, numeric strings in
any notation match the number they denote, strings that denote the same double
match, `true` matches `1`, `null` and a blank string match `0`, and strings that
are not numeric match only themselves. -/
theorem allMatch_iff_fields_agree :
    (∀ selector dbVal : JSObj, allMatch selector dbVal = true ↔
      ∀ p ∈ keys selector,
        fieldAgrees notNaN (getField dbVal p) (getField selector p) = true) ∧
    allMatch (amount (JSVal.str "5")) (amount (JSVal.num (JSNum.ofInt 5))) = true ∧
    allMatch (amount (JSVal.num (JSNum.ofInt 5))) (amount (JSVal.str "5")) = true ∧
    allMatch (amount (JSVal.num (JSNum.ofInt 1))) (amount (JSVal.str "1.0")) = true ∧
    allMatch (amount (JSVal.num (JSNum.ofInt 16))) (amount (JSVal.str "0x10")) = true ∧
    allMatch (amount (JSVal.num (JSNum.ofInt 10))) (amount (JSVal.str "1e1")) = true ∧
    allMatch (amount (JSVal.str "9007199254740992"))
      (amount (JSVal.str "9007199254740993")) = true ∧
    allMatch (amount (JSVal.str "0.5")) (amount (JSVal.str ".5e0")) = true ∧
    allMatch (amount (JSVal.num (JSNum.ofInt 1))) (amount (JSVal.bool true)) = true ∧
    allMatch (amount (JSVal.num (JSNum.ofInt 0))) (amount JSVal.null) = true ∧
    allMatch (amount (JSVal.num (JSNum.ofInt 0))) (amount (JSVal.str " ")) = true ∧
    allMatch (amount (JSVal.str "abc")) (amount (JSVal.str "abc")) = true ∧
    allMatch (amount (JSVal.str "abc")) (amount (JSVal.str "abd")) = false ∧
    allMatch (amount (JSVal.str "5")) (amount (JSVal.num (JSNum.ofInt 6))) = false ∧
    allMatch (amount (JSVal.str "5")) (amount (JSVal.str "5.5")) = false ∧
    allMatch (amount (JSVal.num JSNum.nan)) (amount (JSVal.num JSNum.nan)) = false ∧
    allMatch (amount (JSVal.num (JSNum.ofInt 5))) [] = false := by
  refine ⟨fun selector dbVal => selectorLoop_iff selector dbVal (keys selector), ?_⟩
  decide

/-- C6. When the backend accepts the write, `store(K, V)` followed by `read(K)`
returns the one-element sequence `[V]`, whatever the store held before. -/
theorem read_after_store (self : LocalForage) (db db1 : DB) (key : String) (data : JSObj)
    (hwrite : db.setItem key data = Except.ok db1) :
    self.read (self.store db key data) key = [data] := by
  unfold DB.setItem at hwrite
  by_cases hf : db.failing = true
  · simp [hf] at hwrite
  · simp [LocalForage.read, LocalForage.store, DB.setItem, DB.getItem, hf, lookup_upsert]

/-- C6, instance: overwriting the key `3` of the ten-record store. -/
theorem read_after_store_witness :
    tenStore.setItem "3" testRecord =
        Except.ok { items := upsert "3" testRecord tenStore.items, failing := false } ∧
      (LocalForage.new none).read ((LocalForage.new none).store tenStore "3" testRecord) "3" =
        [testRecord] :=
  ⟨rfl, read_after_store (LocalForage.new none) tenStore _ "3" testRecord rfl⟩

/-- C7, as stated, fails: on a store whose driver rejects the removal, the
rejection is swallowed and `read` still returns the record. -/
theorem read_after_rejected_remove :
    stuckStore.getItem "test" = some testRecord ∧
      (LocalForage.new none).read ((LocalForage.new none).remove stuckStore "test") "test" ≠
        [] := by
  decide

/-- C7, amended. When the backend accepts the removal, `remove(K)` followed by
`read(K)` returns the empty sequence. -/
theorem read_after_remove (self : LocalForage) (db db1 : DB) (key : String)
    (hremove : db.removeItem key = Except.ok db1) :
    self.read (self.remove db key) key = [] := by
  unfold DB.removeItem at hremove
  by_cases hf : db.failing = true
  · simp [hf] at hremove
  · simp only [LocalForage.read, LocalForage.remove, DB.removeItem, DB.getItem, hf]
    simp only [Bool.false_eq_true, if_false]
    rw [lookup_filter_ne]

/-- C7, instance: removing the key `3` of the ten-record store. -/
theorem read_after_remove_witness :
    tenStore.getItem "3" = some (recN 3) ∧
      tenStore.removeItem "3" =
        Except.ok { items := tenStore.items.filter (fun kv => kv.1 ≠ "3"), failing := false } ∧
      (LocalForage.new none).read ((LocalForage.new none).remove tenStore "3") "3" = [] :=
  ⟨by decide, rfl, read_after_remove (LocalForage.new none) tenStore _ "3" rfl⟩

/-- C8, as stated, fails: the callback returns `3` on the third record, the first
on which it returns a value, and `iterate` resolves to `undefined`. -/
theorem iterate_discards_callback_value :
    firstAboveTwo (recN 1) "1" 1 = none ∧ firstAboveTwo (recN 2) "2" 2 = none ∧
      firstAboveTwo (recN 3) "3" 3 = some (JSVal.num (JSNum.ofInt 3)) ∧
      ((LocalForage.new none).iterate tenStore (logging firstAboveTwo) []).2 ≠
        some (JSVal.num (JSNum.ofInt 3)) := by
  decide

/-- C8, amended. When the callback returns `undefined` on the records `pre` and,
if a record follows, a value on it, the backend calls the callback on `pre` and
that record only and yields that value; `iterate` makes the same calls and
resolves to `undefined` in every case. -/
theorem iterate_stops_at_first_value {β : Type} (self : LocalForage) (db : DB)
    (f : JSObj → String → Nat → Option β) (pre rest : List (String × JSObj))
    (hitems : db.items = pre ++ rest)
    (hpre : ∀ i (h : i < pre.length), f pre[i].2 pre[i].1 (i + 1) = none)
    (hstop : ∀ k v post, rest = (k, v) :: post → f v k (pre.length + 1) ≠ none) :
    db.iterate (logging f) [] =
        (pre ++ rest.take 1, rest.head?.bind (fun kv => f kv.2 kv.1 (pre.length + 1))) ∧
      self.iterate db (logging f) [] = (pre ++ rest.take 1, none) := by
  have h := iterateFrom_logging f rest pre 1 []
    (fun i hi => by rw [Nat.add_comm]; exact hpre i hi)
    (fun k v post hr => by rw [Nat.add_comm]; exact hstop k v post hr)
  rw [Nat.add_comm 1 pre.length] at h
  simp only [List.nil_append] at h
  simp only [LocalForage.iterate, DB.iterate, hitems, h, and_self]

/-- C8, instance: on the ten-record store the callback is called on the first
three records only. -/
theorem iterate_stops_at_first_value_witness :
    tenStore.items = firstTwo ++ lastEight ∧
      (∀ i (h : i < firstTwo.length),
        firstAboveTwo firstTwo[i].2 firstTwo[i].1 (i + 1) = none) ∧
      (∀ k v post, lastEight = (k, v) :: post →
        firstAboveTwo v k (firstTwo.length + 1) ≠ none) ∧
      (tenStore.iterate (logging firstAboveTwo) [] =
          (firstTwo ++ lastEight.take 1,
            lastEight.head?.bind
              (fun kv => firstAboveTwo kv.2 kv.1 (firstTwo.length + 1))) ∧
        (LocalForage.new none).iterate tenStore (logging firstAboveTwo) [] =
          (firstTwo ++ lastEight.take 1, none)) :=
  have h1 : tenStore.items = firstTwo ++ lastEight := by decide
  have h2 : ∀ i (h : i < firstTwo.length),
      firstAboveTwo firstTwo[i].2 firstTwo[i].1 (i + 1) = none := by decide
  have h3 : ∀ k v post, lastEight = (k, v) :: post →
      firstAboveTwo v k (firstTwo.length + 1) ≠ none := by
    intro k v post h
    simp only [lastEight, List.cons.injEq, Prod.mk.injEq] at h
    obtain ⟨⟨rfl, rfl⟩, _⟩ := h
    decide
  ⟨h1, h2, h3,
    iterate_stops_at_first_value (LocalForage.new none) tenStore firstAboveTwo firstTwo
      lastEight h1 h2 h3⟩

/-- C9. With limit 2 and a filter keeping the records whose `n` exceeds 2,
`readAll` on the records `n = 1 .. 10` returns nothing, although eight records
pass the filter: the scan ends after `limit` records were visited, not after
`limit` records were collected. -/
theorem readAll_limit_counts_visited :
    (LocalForage.new none).readAll tenStore
        { sort := sortByN, limit := some 2, filterFn := some nAboveTwo } = [] ∧
      ((tenStore.items.map Prod.snd).filter (fun v => nAboveTwo v "" 0)).length = 8 := by
  decide

/-- C10. For every store, selector, sort, offset and limit, `find` with
`includeTotal` set returns a total with a window, and `find` without it returns
that same window. -/
theorem find_window_independent_of_includeTotal (self : LocalForage) (db : DB)
    (selector : JSObj) (sort : Option (List SortSpec)) (limit offset : Option Int) :
    ∃ total data,
      self.find db
          { selector := selector, sort := sort, limit := limit, offset := offset,
            includeTotal := true } = FindResult.withTotal total data ∧
        self.find db
          { selector := selector, sort := sort, limit := limit, offset := offset,
            includeTotal := false } = FindResult.list data := by
  refine ⟨(db.iterate (findCallback selector (orDefault offset 0)
      (orDefault limit self.querySizeLimit) true)
      { set := [], total := 0, skipping := decide (orDefault offset 0 > 0) }).1.total,
    _buildSortFn sort (db.iterate (findCallback selector (orDefault offset 0)
      (orDefault limit self.querySizeLimit) true)
      { set := [], total := 0, skipping := decide (orDefault offset 0 > 0) }).1.set, ?_, ?_⟩
  · simp only [LocalForage.find, if_true]
  · simp only [LocalForage.find, DB.iterate, Bool.false_eq_true, if_false]
    rw [iterateFrom_find_set]

end EthEventStorage
